import Mathlib

/-!
# Chat server (`server/server.go`): embedding and verified properties

The server keeps two process-wide maps keyed by connection, `clientNames`
(a plain Go map) and `clientList` (a `sync.Map`), and appends every broadcast
text to `history.log`.  The development below embeds `logMessage`,
`broadcastMessage`, `handleMessage` and `handleConnection` as pure functions
on an explicit server state and proves properties of them.

Modelling conventions

* A connection (`net.Conn`) is an opaque identity; it is a natural number here.
* Both maps are association lists with pairwise distinct keys (`AList`), so a
  key occurs at most once, as in a Go map.  `sync.Map.Range` visits every key
  present when the call starts exactly once; the callback of
  `broadcastMessage` only ever deletes the key it is visiting.  The order of
  the visit is unspecified in Go; the list order is used here.  Only
  connections are ever stored as keys, so the type assertion
  `key.(net.Conn)` in the callback always succeeds.
* A write either succeeds and delivers the whole text, or fails and delivers
  nothing.
* Everything the server does to the outside world is recorded, in order, in
  `State.trace`: each `conn.Write`, each `conn.Close`, each `logMessage` call.
  Diagnostics printed through the `log` package and the send on the
  `activeClients` channel are not recorded.
* What the outside world decides is an `Env`: the rendered clock
  `time.Now().Format("15:04")`, which writes fail, and whether `history.log`
  can be opened and written.
* The functions run one at a time (no interleaving of goroutines).
-/

namespace ChatServer

/-! ## Go standard library functions used by the server -/

namespace unicode

/-- Go `unicode.IsSpace`: the Latin-1 space characters and the other code
points with the Unicode White_Space property. -/
def IsSpace (r : Char) : Bool :=
  let n := r.toNat
  if n ≤ 0xFF then
    n = 0x09 || n = 0x0A || n = 0x0B || n = 0x0C || n = 0x0D || n = 0x20 || n = 0x85 || n = 0xA0
  else
    n = 0x1680 || (0x2000 ≤ n && n ≤ 0x200A) || n = 0x2028 || n = 0x2029 || n = 0x202F
      || n = 0x205F || n = 0x3000

end unicode

namespace strings

/-- Go `strings.HasPrefix`: whether `s` begins with `pre`. -/
def HasPrefix (s pre : String) : Bool :=
  pre.data.isPrefixOf s.data

/-- Go `strings.TrimPrefix`: `s` without the leading `pre`; `s` itself when it
does not begin with `pre`. -/
def TrimPrefix (s pre : String) : String :=
  if HasPrefix s pre then ⟨s.data.drop pre.data.length⟩ else s

/-- Go `strings.TrimSpace`: `s` without leading and trailing white space. -/
def TrimSpace (s : String) : String :=
  ⟨((s.data.dropWhile unicode.IsSpace).reverse.dropWhile unicode.IsSpace).reverse⟩

end strings

namespace strconv

/-- Go `strconv.Itoa` on a non-negative integer: its decimal representation. -/
def Itoa (n : Nat) : String :=
  Nat.repr n

end strconv

/-! ## Data model -/

/-- A connection handle (`net.Conn`), compared by identity. -/
abbrev Conn := Nat

/-- A Go map from connections to strings. -/
abbrev ConnMap := AList (fun _ : Conn => String)

/-- One action of the server on the outside world. -/
inductive Event where
  /-- A call `conn.Write([]byte(data))`; `ok` says that it returned no error. -/
  | write (conn : Conn) (data : String) (ok : Bool)
  /-- A call `conn.Close()`. -/
  | close (conn : Conn)
  /-- A call `logMessage(message)`; `ok` says that `message` was appended to
  `history.log`. -/
  | log (message : String) (ok : Bool)
  deriving DecidableEq, Repr

/-- The package-level variables of the server, with the record of its
actions so far (oldest first). -/
structure State where
  clientNames : ConnMap
  clientList : ConnMap
  trace : List Event
  deriving DecidableEq

/-- What the outside world decides while one line (or one read error, or one
broadcast) is handled. -/
structure Env where
  /-- The value of `time.Now().Format("15:04")`. -/
  now : String
  /-- Whether `conn.Write` returns an error on this connection. -/
  writeFails : Conn → Bool
  /-- Whether `os.OpenFile("history.log", ...)` fails in the `logMessage` call
  made while this connection is visited. -/
  logOpenFails : Conn → Bool
  /-- Whether `file.WriteString` fails in that call. -/
  logWriteFails : Conn → Bool

/-- How a `reader.ReadString` call failed. -/
inductive ReadErr where
  | eof
  | other
  deriving DecidableEq, Repr

/-- The server state at start-up: both maps empty, nothing done yet. -/
def State.empty : State :=
  ⟨∅, ∅, []⟩

/-- Number of entries of a map (Go `len`). -/
def len (m : ConnMap) : Nat :=
  m.entries.length

/-- Go map indexing `m[conn]`: the zero value `""` when the key is missing. -/
def index (m : ConnMap) (conn : Conn) : String :=
  (m.lookup conn).getD ""

/-! ## The server functions -/

/-- `logMessage`: append `message` to `history.log`; a failure to open or to
write the file is reported on the diagnostic log only. -/
def logMessage (openFails writeFails : Bool) (s : State) (message : String) : State :=
  if openFails then
    { s with trace := s.trace ++ [Event.log message false] }
  else if writeFails then
    { s with trace := s.trace ++ [Event.log message false] }
  else
    { s with trace := s.trace ++ [Event.log message true] }

/-- The callback `broadcastMessage` passes to `clientList.Range`, applied to the
key `conn`. -/
def visit (env : Env) (msg : String) (s : State) (conn : Conn) : State :=
  let s1 : State := { s with trace := s.trace ++ [Event.write conn msg (!env.writeFails conn)] }
  let s2 : State :=
    if env.writeFails conn then
      { s1 with trace := s1.trace ++ [Event.close conn], clientList := s1.clientList.erase conn }
    else s1
  logMessage (env.logOpenFails conn) (env.logWriteFails conn) s2 msg

/-- `broadcastMessage`: visit every key of `clientList`. -/
def broadcastMessage (env : Env) (s : State) (msg : String) : State :=
  s.clientList.keys.foldl (visit env msg) s

/-- `handleMessage` on an already trimmed line. -/
def handleMessage (env : Env) (s : State) (conn : Conn) (msg : String) : State :=
  if strings.HasPrefix msg "/join" then
    let nickname := strings.TrimSpace (strings.TrimPrefix msg "/join")
    let joinMessage := env.now ++ " Notice: \"" ++ nickname ++ "\" joined the chat\n"
    let s1 : State := { s with clientNames := s.clientNames.insert conn nickname }
    let s2 : State := { s1 with clientList := s1.clientList.insert conn nickname }
    broadcastMessage env s2 joinMessage
  else if strings.HasPrefix msg "/users" then
    let message := env.now ++ " Notice: \"" ++ strconv.Itoa (len s.clientNames)
      ++ "\" clients in chat\n"
    broadcastMessage env s message
  else
    match s.clientNames.lookup conn with
    | none =>
      { s with trace := s.trace ++
          [Event.write conn "Write: /join `nickname`.\n" (!env.writeFails conn)] }
    | some nickname =>
      let chatMessage := env.now ++ " - " ++ nickname ++ ": " ++ msg ++ "\n"
      broadcastMessage env s chatMessage

/-- The read loop of `handleConnection`: `lines` are the strings the successive
`reader.ReadString` calls return, each with the environment in force while it
is handled; `last` is the read error that ends the loop. -/
def readLoop (conn : Conn) (s : State) : List (Env × String) → Env × ReadErr → State
  | [], (env, ReadErr.eof) =>
    let leaveMessage := env.now ++ " Notice: \"" ++ index s.clientNames conn ++ "\" left the chat\n"
    broadcastMessage env s leaveMessage
  | [], (env, ReadErr.other) =>
    let leaveMessage := env.now ++ " Notice: \"" ++ index s.clientNames conn ++ "\" left the chat\n"
    broadcastMessage env s leaveMessage
  | (env, msg) :: rest, last =>
    readLoop conn (handleMessage env s conn (strings.TrimSpace msg)) rest last

/-- The deferred function of `handleConnection`. -/
def teardown (conn : Conn) (s : State) : State :=
  { trace := s.trace ++ [Event.close conn],
    clientList := s.clientList.erase conn,
    clientNames := s.clientNames.erase conn }

/-- `handleConnection`: the read loop, then the deferred teardown. -/
def handleConnection (conn : Conn) (s : State) (lines : List (Env × String))
    (last : Env × ReadErr) : State :=
  teardown conn (readLoop conn s lines last)

/-! ## Observations on a state -/

/-- The text an action delivers to `conn`, if any. -/
def Event.deliveredTo (conn : Conn) : Event → Option String
  | Event.write c data true => if c = conn then some data else none
  | _ => none

/-- The text an action tries to write to `conn`, if any. -/
def Event.writtenTo (conn : Conn) : Event → Option String
  | Event.write c data _ => if c = conn then some data else none
  | _ => none

/-- The text an action appends to `history.log`, if any. -/
def Event.appended : Event → Option String
  | Event.log message true => some message
  | _ => none

/-- The text an action passes to `logMessage`, if any. -/
def Event.logged : Event → Option String
  | Event.log message _ => some message
  | _ => none

/-- The texts written successfully to `conn`, oldest first: what the peer
receives. -/
def received (s : State) (conn : Conn) : List String :=
  s.trace.filterMap (Event.deliveredTo conn)

/-- The texts of all `conn.Write` calls on `conn`, failed ones included. -/
def writes (s : State) (conn : Conn) : List String :=
  s.trace.filterMap (Event.writtenTo conn)

/-- Whether `conn.Close()` has been called. -/
def closed (s : State) (conn : Conn) : Bool :=
  s.trace.contains (Event.close conn)

/-- The content of `history.log`, as the list of appended texts. -/
def history (s : State) : List String :=
  s.trace.filterMap Event.appended

/-- The texts of all `logMessage` calls. -/
def logCalls (s : State) : List String :=
  s.trace.filterMap Event.logged

/-- An environment in which every write succeeds and the log is writable. -/
def Env.good (now : String) : Env :=
  ⟨now, fun _ => false, fun _ => false, fun _ => false⟩

/-- An environment in which writes to `bad` fail, all else succeeds. -/
def Env.failing (now : String) (bad : Conn) : Env :=
  ⟨now, fun c => decide (c = bad), fun _ => false, fun _ => false⟩

/-- States the server can be in: from start-up, by any sequence of
`handleMessage`, `broadcastMessage` and `handleConnection` calls. -/
inductive Reachable : State → Prop where
  | init : Reachable State.empty
  | message {s : State} (env : Env) (conn : Conn) (msg : String) :
      Reachable s → Reachable (handleMessage env s conn msg)
  | broadcast {s : State} (env : Env) (msg : String) :
      Reachable s → Reachable (broadcastMessage env s msg)
  | connection {s : State} (conn : Conn) (lines : List (Env × String)) (last : Env × ReadErr) :
      Reachable s → Reachable (handleConnection conn s lines last)

/-- The state when the read loop of `handleConnection` meets the read error:
every line read so far has been trimmed and handled. -/
def afterLines (conn : Conn) (s : State) (lines : List (Env × String)) : State :=
  lines.foldl (fun st p => handleMessage p.1 st conn (strings.TrimSpace p.2)) s

/-- The name a session has registered last: the name of its last `/join`
line, and `init` (what was registered for the handle before the session)
when it sent none. -/
def lastJoined (init : Option String) (lines : List (Env × String)) : Option String :=
  lines.foldl
    (fun acc p =>
      if strings.HasPrefix (strings.TrimSpace p.2) "/join" then
        some (strings.TrimSpace (strings.TrimPrefix (strings.TrimSpace p.2) "/join"))
      else acc)
    init

/-- The server runs on from `s` to `t` without the handle `h` taking part: by
lines and sessions of other handles, and by broadcasts. -/
inductive RunsWithout (h : Conn) : State → State → Prop where
  | refl (s : State) : RunsWithout h s s
  | message {s t : State} (env : Env) (conn : Conn) (msg : String) :
      RunsWithout h s t → conn ≠ h → RunsWithout h s (handleMessage env t conn msg)
  | broadcast {s t : State} (env : Env) (msg : String) :
      RunsWithout h s t → RunsWithout h s (broadcastMessage env t msg)
  | connection {s t : State} (conn : Conn) (lines : List (Env × String)) (last : Env × ReadErr) :
      RunsWithout h s t → conn ≠ h → RunsWithout h s (handleConnection conn t lines last)

/-- Two participants: handle 1 joined as Alice, then handle 2 joined as Bob,
every write succeeding. -/
def twoJoined : State :=
  handleMessage (Env.good "12:00")
    (handleMessage (Env.good "12:00") State.empty 1 "/join Alice") 2 "/join Bob"

/-- Handle 1 joined as Alice, then handle 2 sent `/join Bob` over a connection
on which the server's write of the join notice fails. -/
def oneEvicted : State :=
  handleMessage (Env.failing "12:00" 2)
    (handleMessage (Env.good "12:00") State.empty 1 "/join Alice") 2 "/join Bob"

/-! ## Auxiliary definitions: a broadcast in closed form, the invariant -/

/-- The actions of one `visit`, in order. -/
def visitEvents (env : Env) (msg : String) (conn : Conn) : List Event :=
  Event.write conn msg (!env.writeFails conn) ::
    ((if env.writeFails conn then [Event.close conn] else []) ++
      [Event.log msg (!env.logOpenFails conn && !env.logWriteFails conn)])

/-- The actions of the visits of the connections `l`, in order. -/
def broadcastEvents (env : Env) (msg : String) : List Conn → List Event
  | [] => []
  | c :: cs => visitEvents env msg c ++ broadcastEvents env msg cs

/-- The map `m` after the connections of `l` whose write fails were deleted. -/
def eraseFailed (env : Env) : List Conn → ConnMap → ConnMap
  | [], m => m
  | c :: cs, m => eraseFailed env cs (if env.writeFails c then m.erase c else m)

/-- Every entry of `clientList` is an entry of `clientNames`. -/
def ListInNames (s : State) : Prop :=
  ∀ h n, s.clientList.lookup h = some n → s.clientNames.lookup h = some n

/-! ## The effect of a broadcast: lemmas -/

theorem visit_eq (env : Env) (msg : String) (s : State) (c : Conn) :
    visit env msg s c =
      ⟨s.clientNames, if env.writeFails c then s.clientList.erase c else s.clientList,
        s.trace ++ visitEvents env msg c⟩ := by
  unfold visit logMessage visitEvents
  cases hw : env.writeFails c <;> cases ho : env.logOpenFails c <;>
    cases hl : env.logWriteFails c <;> simp

theorem foldl_visit (env : Env) (msg : String) (l : List Conn) (s : State) :
    l.foldl (visit env msg) s =
      ⟨s.clientNames, eraseFailed env l s.clientList, s.trace ++ broadcastEvents env msg l⟩ := by
  induction l generalizing s with
  | nil => simp [eraseFailed, broadcastEvents]
  | cons c cs ih =>
    rw [List.foldl_cons, ih, visit_eq]
    simp [eraseFailed, broadcastEvents, List.append_assoc]

theorem broadcastMessage_eq (env : Env) (s : State) (msg : String) :
    broadcastMessage env s msg =
      ⟨s.clientNames, eraseFailed env s.clientList.keys s.clientList,
        s.trace ++ broadcastEvents env msg s.clientList.keys⟩ :=
  foldl_visit env msg s.clientList.keys s

/-! ## What a broadcast's actions amount to -/

theorem deliveredTo_broadcastEvents (env : Env) (msg : String) (c : Conn) (l : List Conn)
    (hl : l.Nodup) :
    (broadcastEvents env msg l).filterMap (Event.deliveredTo c) =
      if c ∈ l ∧ env.writeFails c = false then [msg] else [] := by
  induction l with
  | nil => simp [broadcastEvents]
  | cons d ds ih =>
    have hd : d ∉ ds := (List.nodup_cons.mp hl).1
    have ih2 := ih (List.nodup_cons.mp hl).2
    simp only [broadcastEvents, visitEvents, List.filterMap_append, ih2]
    by_cases hcd : c = d
    · subst hcd
      cases hw : env.writeFails c <;>
        simp [List.filterMap_cons, Event.deliveredTo, hd, hw]
    · have hdc : ¬ d = c := fun h => hcd h.symm
      cases hw : env.writeFails d <;>
        simp [List.filterMap_cons, Event.deliveredTo, hcd, hdc, hw]

theorem writtenTo_broadcastEvents (env : Env) (msg : String) (c : Conn) (l : List Conn)
    (hl : l.Nodup) :
    (broadcastEvents env msg l).filterMap (Event.writtenTo c) =
      if c ∈ l then [msg] else [] := by
  induction l with
  | nil => simp [broadcastEvents]
  | cons d ds ih =>
    have hd : d ∉ ds := (List.nodup_cons.mp hl).1
    have ih2 := ih (List.nodup_cons.mp hl).2
    simp only [broadcastEvents, visitEvents, List.filterMap_append, ih2]
    by_cases hcd : c = d
    · subst hcd
      cases hw : env.writeFails c <;>
        simp [List.filterMap_cons, Event.writtenTo, hd, hw]
    · have hdc : ¬ d = c := fun h => hcd h.symm
      cases hw : env.writeFails d <;>
        simp [List.filterMap_cons, Event.writtenTo, hcd, hdc, hw]

theorem logged_broadcastEvents (env : Env) (msg : String) (l : List Conn) :
    (broadcastEvents env msg l).filterMap Event.logged = List.replicate l.length msg := by
  induction l with
  | nil => simp [broadcastEvents]
  | cons d ds ih =>
    simp only [broadcastEvents, visitEvents, List.filterMap_append, ih]
    cases hw : env.writeFails d <;>
      simp [List.filterMap_cons, Event.logged, List.replicate_succ]

theorem appended_broadcastEvents (env : Env) (msg : String) (l : List Conn)
    (hok : ∀ c ∈ l, env.logOpenFails c = false ∧ env.logWriteFails c = false) :
    (broadcastEvents env msg l).filterMap Event.appended = List.replicate l.length msg := by
  induction l with
  | nil => simp [broadcastEvents]
  | cons d ds ih =>
    have ih2 := ih (fun c hc => hok c (List.mem_cons_of_mem d hc))
    obtain ⟨ho, hw2⟩ := hok d (List.mem_cons_self d ds)
    simp only [broadcastEvents, visitEvents, List.filterMap_append, ih2]
    cases hw : env.writeFails d <;>
      simp [List.filterMap_cons, Event.appended, List.replicate_succ, ho, hw2]

theorem close_mem_broadcastEvents (env : Env) (msg : String) (c : Conn) (l : List Conn) :
    Event.close c ∈ broadcastEvents env msg l ↔ c ∈ l ∧ env.writeFails c = true := by
  induction l with
  | nil => simp [broadcastEvents]
  | cons d ds ih =>
    simp only [broadcastEvents, visitEvents, List.mem_append, ih]
    by_cases hcd : c = d
    · subst hcd
      cases hw : env.writeFails c <;> simp [hw]
    · have hdc : ¬ d = c := fun h => hcd h.symm
      cases hw : env.writeFails d <;> simp [hcd, hdc, hw]

/-! ## What a broadcast does to `clientList` -/

theorem lookup_eraseFailed (env : Env) (c : Conn) (l : List Conn) (m : ConnMap) :
    (eraseFailed env l m).lookup c =
      if c ∈ l ∧ env.writeFails c = true then none else m.lookup c := by
  induction l generalizing m with
  | nil => simp [eraseFailed]
  | cons d ds ih =>
    simp only [eraseFailed, ih]
    by_cases hcd : c = d
    · subst hcd
      cases hw : env.writeFails c <;> simp [hw, AList.lookup_erase]
    · cases hw : env.writeFails d
      · simp [hcd]
      · simp [hcd, AList.lookup_erase_ne hcd]

theorem eraseFailed_of_ok (env : Env) (l : List Conn) (m : ConnMap)
    (hok : ∀ c ∈ l, env.writeFails c = false) : eraseFailed env l m = m := by
  induction l generalizing m with
  | nil => simp [eraseFailed]
  | cons d ds ih =>
    simp only [eraseFailed, hok d (List.mem_cons_self d ds)]
    exact ih m (fun c hc => hok c (List.mem_cons_of_mem d hc))

theorem mem_keys_iff_lookup (m : ConnMap) (c : Conn) :
    c ∈ m.keys ↔ m.lookup c ≠ none := by
  rw [← AList.mem_keys, Ne, AList.lookup_eq_none, not_not]

/-! ## Observations after a broadcast -/

theorem clientNames_broadcastMessage (env : Env) (s : State) (msg : String) :
    (broadcastMessage env s msg).clientNames = s.clientNames := by
  rw [broadcastMessage_eq]

theorem trace_broadcastMessage (env : Env) (s : State) (msg : String) :
    (broadcastMessage env s msg).trace = s.trace ++ broadcastEvents env msg s.clientList.keys := by
  rw [broadcastMessage_eq]

theorem lookup_clientList_broadcastMessage (env : Env) (s : State) (msg : String) (c : Conn) :
    (broadcastMessage env s msg).clientList.lookup c =
      if c ∈ s.clientList.keys ∧ env.writeFails c = true then none else s.clientList.lookup c := by
  rw [broadcastMessage_eq]
  exact lookup_eraseFailed env c s.clientList.keys s.clientList

theorem clientList_broadcastMessage_of_ok (env : Env) (s : State) (msg : String)
    (hok : ∀ c ∈ s.clientList.keys, env.writeFails c = false) :
    (broadcastMessage env s msg).clientList = s.clientList := by
  rw [broadcastMessage_eq]
  exact eraseFailed_of_ok env s.clientList.keys s.clientList hok

theorem received_broadcastMessage (env : Env) (s : State) (msg : String) (c : Conn) :
    received (broadcastMessage env s msg) c =
      received s c ++ if c ∈ s.clientList.keys ∧ env.writeFails c = false then [msg] else [] := by
  simp only [received, trace_broadcastMessage, List.filterMap_append,
    deliveredTo_broadcastEvents env msg c s.clientList.keys s.clientList.keys_nodup]

theorem writes_broadcastMessage (env : Env) (s : State) (msg : String) (c : Conn) :
    writes (broadcastMessage env s msg) c =
      writes s c ++ if c ∈ s.clientList.keys then [msg] else [] := by
  simp only [writes, trace_broadcastMessage, List.filterMap_append,
    writtenTo_broadcastEvents env msg c s.clientList.keys s.clientList.keys_nodup]

theorem logCalls_broadcastMessage (env : Env) (s : State) (msg : String) :
    logCalls (broadcastMessage env s msg) =
      logCalls s ++ List.replicate (len s.clientList) msg := by
  simp only [logCalls, trace_broadcastMessage, List.filterMap_append, logged_broadcastEvents,
    len, AList.keys, List.keys, List.length_map]

theorem history_broadcastMessage (env : Env) (s : State) (msg : String)
    (hok : ∀ c ∈ s.clientList.keys, env.logOpenFails c = false ∧ env.logWriteFails c = false) :
    history (broadcastMessage env s msg) =
      history s ++ List.replicate (len s.clientList) msg := by
  have hlen : s.clientList.keys.length = len s.clientList := by
    simp [len, AList.keys, List.keys]
  rw [history, trace_broadcastMessage, List.filterMap_append,
    appended_broadcastEvents env msg s.clientList.keys hok, hlen]
  rfl

theorem closed_broadcastMessage (env : Env) (s : State) (msg : String) (c : Conn) :
    closed (broadcastMessage env s msg) c =
      (closed s c || decide (c ∈ s.clientList.keys ∧ env.writeFails c = true)) := by
  simp only [closed, trace_broadcastMessage, List.contains_eq_any_beq, List.any_append]
  congr 1
  rw [Bool.eq_iff_iff]
  simp only [List.any_eq_true, beq_iff_eq, decide_eq_true_eq]
  rw [← close_mem_broadcastEvents env msg c s.clientList.keys]
  constructor
  · rintro ⟨x, hx, rfl⟩
    exact hx
  · intro h
    exact ⟨_, h, rfl⟩

/-! ## The three branches of `handleMessage` -/

theorem handleMessage_join_eq (env : Env) (s : State) (h : Conn) (line : String)
    (hjoin : strings.HasPrefix line "/join" = true) :
    handleMessage env s h line =
      broadcastMessage env
        ⟨s.clientNames.insert h (strings.TrimSpace (strings.TrimPrefix line "/join")),
          s.clientList.insert h (strings.TrimSpace (strings.TrimPrefix line "/join")), s.trace⟩
        (env.now ++ " Notice: \"" ++ strings.TrimSpace (strings.TrimPrefix line "/join")
          ++ "\" joined the chat\n") := by
  simp only [handleMessage, hjoin, if_true]

theorem handleMessage_users_eq (env : Env) (s : State) (h : Conn) (line : String)
    (hjoin : strings.HasPrefix line "/join" = false)
    (husers : strings.HasPrefix line "/users" = true) :
    handleMessage env s h line =
      broadcastMessage env s
        (env.now ++ " Notice: \"" ++ strconv.Itoa (len s.clientNames) ++ "\" clients in chat\n") := by
  simp [handleMessage, hjoin, husers]

theorem handleMessage_chat_eq (env : Env) (s : State) (h : Conn) (n m : String)
    (hn : s.clientNames.lookup h = some n)
    (hjoin : strings.HasPrefix m "/join" = false)
    (husers : strings.HasPrefix m "/users" = false) :
    handleMessage env s h m =
      broadcastMessage env s (env.now ++ " - " ++ n ++ ": " ++ m ++ "\n") := by
  simp [handleMessage, hjoin, husers, hn]

theorem handleMessage_prompt_eq (env : Env) (s : State) (h : Conn) (line : String)
    (hn : s.clientNames.lookup h = none)
    (hjoin : strings.HasPrefix line "/join" = false)
    (husers : strings.HasPrefix line "/users" = false) :
    handleMessage env s h line =
      { s with trace := s.trace ++
          [Event.write h "Write: /join `nickname`.\n" (!env.writeFails h)] } := by
  simp [handleMessage, hjoin, husers, hn]

theorem count_key_eq_one (m : ConnMap) (c : Conn) (hc : c ∈ m.keys) : m.keys.count c = 1 :=
  List.count_eq_one_of_mem m.keys_nodup hc

/-- Claim C1.  On a line that starts with `/join`, `handleMessage` stores the
handle in `clientNames` under the name left after removing the `/join` prefix
and trimming white space, replacing any earlier name (the handle is a key
exactly once, the other entries are untouched), stores it in `clientList`
under the same name, and writes the join notice, once, to the handle itself
and to every handle that was in `clientList`, and to no other handle; each of
them whose write succeeds receives the notice, and the handle is a key of
`clientList` exactly once afterwards when its own write succeeds. -/
theorem handleMessage_join (env : Env) (s : State) (h : Conn) (line : String)
    (hjoin : strings.HasPrefix line "/join" = true) :
    (handleMessage env s h line).clientNames.lookup h
      = some (strings.TrimSpace (strings.TrimPrefix line "/join")) ∧
    (handleMessage env s h line).clientNames.keys.count h = 1 ∧
    (∀ c, c ≠ h → (handleMessage env s h line).clientNames.lookup c = s.clientNames.lookup c) ∧
    (env.writeFails h = false →
      (handleMessage env s h line).clientList.lookup h
        = some (strings.TrimSpace (strings.TrimPrefix line "/join")) ∧
      (handleMessage env s h line).clientList.keys.count h = 1) ∧
    (∀ c, c = h ∨ c ∈ s.clientList.keys →
      writes (handleMessage env s h line) c = writes s c ++
        [env.now ++ " Notice: \"" ++ strings.TrimSpace (strings.TrimPrefix line "/join")
          ++ "\" joined the chat\n"]) ∧
    (∀ c, c = h ∨ c ∈ s.clientList.keys → env.writeFails c = false →
      received (handleMessage env s h line) c = received s c ++
        [env.now ++ " Notice: \"" ++ strings.TrimSpace (strings.TrimPrefix line "/join")
          ++ "\" joined the chat\n"]) ∧
    (∀ c, c ≠ h → c ∉ s.clientList.keys →
      writes (handleMessage env s h line) c = writes s c) := by
  rw [handleMessage_join_eq env s h line hjoin]
  have hmem : ∀ c, c ∈ (s.clientList.insert h
      (strings.TrimSpace (strings.TrimPrefix line "/join"))).keys ↔ c = h ∨ c ∈ s.clientList.keys := by
    intro c
    rw [← AList.mem_keys, AList.mem_insert, AList.mem_keys]
  have hlk : (broadcastMessage env
        ⟨s.clientNames.insert h (strings.TrimSpace (strings.TrimPrefix line "/join")),
          s.clientList.insert h (strings.TrimSpace (strings.TrimPrefix line "/join")), s.trace⟩
        (env.now ++ " Notice: \"" ++ strings.TrimSpace (strings.TrimPrefix line "/join")
          ++ "\" joined the chat\n")).clientNames.lookup h
      = some (strings.TrimSpace (strings.TrimPrefix line "/join")) := by
    rw [clientNames_broadcastMessage]
    exact AList.lookup_insert s.clientNames
  refine ⟨hlk, ?_, ?_, ?_, ?_, ?_, ?_⟩
  · apply count_key_eq_one
    rw [mem_keys_iff_lookup, hlk]
    simp
  · intro c hc
    rw [clientNames_broadcastMessage]
    exact AList.lookup_insert_ne hc
  · intro hw
    have hl : (broadcastMessage env
        ⟨s.clientNames.insert h (strings.TrimSpace (strings.TrimPrefix line "/join")),
          s.clientList.insert h (strings.TrimSpace (strings.TrimPrefix line "/join")), s.trace⟩
        (env.now ++ " Notice: \"" ++ strings.TrimSpace (strings.TrimPrefix line "/join")
          ++ "\" joined the chat\n")).clientList.lookup h
        = some (strings.TrimSpace (strings.TrimPrefix line "/join")) := by
      rw [lookup_clientList_broadcastMessage]
      simp [hw, AList.lookup_insert]
    refine ⟨hl, ?_⟩
    apply count_key_eq_one
    rw [mem_keys_iff_lookup, hl]
    simp
  · intro c hc
    rw [writes_broadcastMessage, if_pos ((hmem c).mpr hc)]
    rfl
  · intro c hc hw
    rw [received_broadcastMessage, if_pos ⟨(hmem c).mpr hc, hw⟩]
    rfl
  · intro c hc1 hc2
    have : c ∉ (s.clientList.insert h
        (strings.TrimSpace (strings.TrimPrefix line "/join"))).keys := by
      rw [hmem]
      exact fun h' => h'.elim hc1 hc2
    rw [writes_broadcastMessage, if_neg this, List.append_nil]
    rfl

/-- Claim C1, with Alice (1) and Bob (2) registered and Alice joining again
as Alicia: her name is replaced and both receive the notice. -/
theorem handleMessage_join_witness :
    strings.HasPrefix "/join  Alicia" "/join" = true ∧
    twoJoined.clientNames.lookup 1 = some "Alice" ∧
    (handleMessage (Env.good "12:05") twoJoined 1 "/join  Alicia").clientNames.lookup 1
      = some "Alicia" ∧
    received (handleMessage (Env.good "12:05") twoJoined 1 "/join  Alicia") 1
      = received twoJoined 1 ++ ["12:05 Notice: \"Alicia\" joined the chat\n"] ∧
    received (handleMessage (Env.good "12:05") twoJoined 1 "/join  Alicia") 2
      = received twoJoined 2 ++ ["12:05 Notice: \"Alicia\" joined the chat\n"] :=
  ⟨by decide, by decide,
    (handleMessage_join (Env.good "12:05") twoJoined 1 "/join  Alicia" (by decide)).1.trans
      (by decide),
    ((handleMessage_join (Env.good "12:05") twoJoined 1 "/join  Alicia"
      (by decide)).2.2.2.2.2.1 1 (Or.inl rfl) rfl).trans (by decide),
    ((handleMessage_join (Env.good "12:05") twoJoined 1 "/join  Alicia"
      (by decide)).2.2.2.2.2.1 2 (Or.inr (by decide)) rfl).trans (by decide)⟩

/-- Claim C2.  When the handle has the name `n` in `clientNames` and the line
`m` starts with neither `/join` nor `/users`, `handleMessage` writes the chat
line, once, to every key of `clientList` and to no other handle: every
registered handle whose write succeeds (the sender too, when registered)
receives exactly that line; `clientNames` is unchanged, and `clientList` is
unchanged when no write fails. -/
theorem handleMessage_chat (env : Env) (s : State) (h : Conn) (n m : String)
    (hn : s.clientNames.lookup h = some n)
    (hjoin : strings.HasPrefix m "/join" = false)
    (husers : strings.HasPrefix m "/users" = false) :
    (∀ c ∈ s.clientList.keys, env.writeFails c = false →
      received (handleMessage env s h m) c
        = received s c ++ [env.now ++ " - " ++ n ++ ": " ++ m ++ "\n"]) ∧
    (h ∈ s.clientList.keys → env.writeFails h = false →
      received (handleMessage env s h m) h
        = received s h ++ [env.now ++ " - " ++ n ++ ": " ++ m ++ "\n"]) ∧
    (∀ c, c ∉ s.clientList.keys → writes (handleMessage env s h m) c = writes s c) ∧
    (handleMessage env s h m).clientNames = s.clientNames ∧
    ((∀ c ∈ s.clientList.keys, env.writeFails c = false) →
      (handleMessage env s h m).clientList = s.clientList) := by
  rw [handleMessage_chat_eq env s h n m hn hjoin husers]
  have hall : ∀ c ∈ s.clientList.keys, env.writeFails c = false →
      received (broadcastMessage env s (env.now ++ " - " ++ n ++ ": " ++ m ++ "\n")) c
        = received s c ++ [env.now ++ " - " ++ n ++ ": " ++ m ++ "\n"] := by
    intro c hc hw
    rw [received_broadcastMessage, if_pos ⟨hc, hw⟩]
  refine ⟨hall, hall h, ?_, clientNames_broadcastMessage _ _ _, ?_⟩
  · intro c hc
    rw [writes_broadcastMessage, if_neg hc, List.append_nil]
  · intro hok
    exact clientList_broadcastMessage_of_ok env s _ hok

/-- Claim C2, with Alice (1) and Bob (2) registered and Bob sending `hi`:
both receive the chat line and the maps are unchanged. -/
theorem handleMessage_chat_witness :
    twoJoined.clientNames.lookup 2 = some "Bob" ∧
    strings.HasPrefix "hi" "/join" = false ∧ strings.HasPrefix "hi" "/users" = false ∧
    received (handleMessage (Env.good "12:06") twoJoined 2 "hi") 1
      = received twoJoined 1 ++ ["12:06 - Bob: hi\n"] ∧
    received (handleMessage (Env.good "12:06") twoJoined 2 "hi") 2
      = received twoJoined 2 ++ ["12:06 - Bob: hi\n"] ∧
    (handleMessage (Env.good "12:06") twoJoined 2 "hi").clientList = twoJoined.clientList :=
  ⟨by decide, by decide, by decide,
    ((handleMessage_chat (Env.good "12:06") twoJoined 2 "Bob" "hi" (by decide) (by decide)
      (by decide)).1 1 (by decide) rfl).trans (by decide),
    ((handleMessage_chat (Env.good "12:06") twoJoined 2 "Bob" "hi" (by decide) (by decide)
      (by decide)).2.1 (by decide) rfl).trans (by decide),
    (handleMessage_chat (Env.good "12:06") twoJoined 2 "Bob" "hi" (by decide) (by decide)
      (by decide)).2.2.2.2 (fun _ _ => rfl)⟩

/-- Claim C3.  When the handle has no name in `clientNames` and the line
starts with neither `/join` nor `/users`, the only thing `handleMessage` does
is one write of the join prompt to that handle: no other handle is written
to, nothing is closed, `logMessage` is not called, both maps are unchanged. -/
theorem handleMessage_unjoined (env : Env) (s : State) (h : Conn) (line : String)
    (hn : s.clientNames.lookup h = none)
    (hjoin : strings.HasPrefix line "/join" = false)
    (husers : strings.HasPrefix line "/users" = false) :
    (handleMessage env s h line).trace
      = s.trace ++ [Event.write h "Write: /join `nickname`.\n" (!env.writeFails h)] ∧
    writes (handleMessage env s h line) h = writes s h ++ ["Write: /join `nickname`.\n"] ∧
    (∀ c, c ≠ h → writes (handleMessage env s h line) c = writes s c) ∧
    logCalls (handleMessage env s h line) = logCalls s ∧
    history (handleMessage env s h line) = history s ∧
    (handleMessage env s h line).clientNames = s.clientNames ∧
    (handleMessage env s h line).clientList = s.clientList := by
  rw [handleMessage_prompt_eq env s h line hn hjoin husers]
  refine ⟨rfl, ?_, ?_, ?_, ?_, rfl, rfl⟩
  · simp [writes, List.filterMap_append, Event.writtenTo]
  · intro c hc
    have hc2 : ¬ h = c := fun h' => hc h'.symm
    simp [writes, List.filterMap_append, Event.writtenTo, hc2]
  · simp [logCalls, List.filterMap_append, Event.logged]
  · simp [history, List.filterMap_append, Event.appended]

/-- Claim C3, with Alice (1) and Bob (2) registered and the unjoined handle 3
sending `/invalid`: the join prompt to handle 3 is the only action. -/
theorem handleMessage_unjoined_witness :
    twoJoined.clientNames.lookup 3 = none ∧
    strings.HasPrefix "/invalid" "/join" = false ∧
    strings.HasPrefix "/invalid" "/users" = false ∧
    (handleMessage (Env.good "12:07") twoJoined 3 "/invalid").trace
      = twoJoined.trace ++ [Event.write 3 "Write: /join `nickname`.\n" true] ∧
    history (handleMessage (Env.good "12:07") twoJoined 3 "/invalid") = history twoJoined :=
  ⟨by decide, by decide, by decide,
    (handleMessage_unjoined (Env.good "12:07") twoJoined 3 "/invalid" (by decide) (by decide)
      (by decide)).1,
    (handleMessage_unjoined (Env.good "12:07") twoJoined 3 "/invalid" (by decide) (by decide)
      (by decide)).2.2.2.2.1⟩

/-! ## Sessions -/

theorem readLoop_eq (conn : Conn) (s : State) (lines : List (Env × String)) (env : Env)
    (err : ReadErr) :
    readLoop conn s lines (env, err) =
      broadcastMessage env (afterLines conn s lines)
        (env.now ++ " Notice: \"" ++ index (afterLines conn s lines).clientNames conn
          ++ "\" left the chat\n") := by
  induction lines generalizing s with
  | nil => cases err <;> rfl
  | cons p rest ih =>
    obtain ⟨e, msg⟩ := p
    simp only [readLoop, afterLines, List.foldl_cons]
    exact ih _

theorem clientNames_handleMessage_lookup (env : Env) (s : State) (h : Conn) (msg : String) :
    (handleMessage env s h msg).clientNames.lookup h =
      if strings.HasPrefix msg "/join" then
        some (strings.TrimSpace (strings.TrimPrefix msg "/join"))
      else s.clientNames.lookup h := by
  cases hj : strings.HasPrefix msg "/join"
  · simp only [Bool.false_eq_true, if_false]
    cases hu : strings.HasPrefix msg "/users"
    · cases hn : s.clientNames.lookup h with
      | none => rw [handleMessage_prompt_eq env s h msg hn hj hu, hn]
      | some n => rw [handleMessage_chat_eq env s h n msg hn hj hu, clientNames_broadcastMessage, hn]
    · rw [handleMessage_users_eq env s h msg hj hu, clientNames_broadcastMessage]
  · simp only [if_true]
    rw [handleMessage_join_eq env s h msg hj, clientNames_broadcastMessage]
    exact AList.lookup_insert s.clientNames

theorem lookup_afterLines (h : Conn) (s : State) (lines : List (Env × String)) :
    (afterLines h s lines).clientNames.lookup h = lastJoined (s.clientNames.lookup h) lines := by
  induction lines generalizing s with
  | nil => rfl
  | cons p rest ih =>
    simp only [afterLines, lastJoined, List.foldl_cons]
    have := ih (handleMessage p.1 s h (strings.TrimSpace p.2))
    simp only [afterLines, lastJoined] at this
    rw [this, clientNames_handleMessage_lookup]

theorem len_erase_of_mem (m : ConnMap) (c : Conn) (hc : c ∈ m.keys) :
    len (m.erase c) + 1 = len m := by
  have h1 : (m.erase c).keys.length + 1 = m.keys.length := by
    rw [AList.keys_erase, List.length_erase_of_mem hc]
    have : 0 < m.keys.length := List.length_pos_of_mem hc
    omega
  simpa [len, AList.keys, List.keys] using h1

theorem not_mem_keys_of_lookup {m : ConnMap} {c : Conn} (h : m.lookup c = none) :
    c ∉ m.keys := by
  rw [mem_keys_iff_lookup, h]
  simp

theorem lookup_of_not_mem_keys {m : ConnMap} {c : Conn} (h : c ∉ m.keys) :
    m.lookup c = none := by
  rw [AList.lookup_eq_none, AList.mem_keys]
  exact h

theorem absent_broadcastMessage (env : Env) (t : State) (msg : String) (h : Conn)
    (hl : t.clientList.lookup h = none) :
    (broadcastMessage env t msg).clientList.lookup h = none ∧
    writes (broadcastMessage env t msg) h = writes t h := by
  constructor
  · rw [lookup_clientList_broadcastMessage, hl]
    simp
  · rw [writes_broadcastMessage, if_neg (not_mem_keys_of_lookup hl), List.append_nil]

theorem handleMessage_other (env : Env) (t : State) (c : Conn) (msg : String) (h : Conn)
    (hc : c ≠ h) (hl : t.clientList.lookup h = none) :
    (handleMessage env t c msg).clientList.lookup h = none ∧
    (handleMessage env t c msg).clientNames.lookup h = t.clientNames.lookup h ∧
    writes (handleMessage env t c msg) h = writes t h := by
  have hhc : h ≠ c := fun e => hc e.symm
  cases hj : strings.HasPrefix msg "/join"
  · cases hu : strings.HasPrefix msg "/users"
    · cases hn : t.clientNames.lookup c with
      | none =>
        rw [handleMessage_prompt_eq env t c msg hn hj hu]
        refine ⟨hl, rfl, ?_⟩
        simp [writes, List.filterMap_append, Event.writtenTo, hc]
      | some n =>
        rw [handleMessage_chat_eq env t c n msg hn hj hu]
        exact ⟨(absent_broadcastMessage env t _ h hl).1, by rw [clientNames_broadcastMessage],
          (absent_broadcastMessage env t _ h hl).2⟩
    · rw [handleMessage_users_eq env t c msg hj hu]
      exact ⟨(absent_broadcastMessage env t _ h hl).1, by rw [clientNames_broadcastMessage],
        (absent_broadcastMessage env t _ h hl).2⟩
  · rw [handleMessage_join_eq env t c msg hj]
    have hl2 : (State.mk (t.clientNames.insert c (strings.TrimSpace (strings.TrimPrefix msg "/join")))
        (t.clientList.insert c (strings.TrimSpace (strings.TrimPrefix msg "/join")))
        t.trace).clientList.lookup h = none := by
      show (t.clientList.insert c _).lookup h = none
      rw [AList.lookup_insert_ne hhc, hl]
    refine ⟨(absent_broadcastMessage env _ _ h hl2).1, ?_, (absent_broadcastMessage env _ _ h hl2).2⟩
    rw [clientNames_broadcastMessage]
    exact AList.lookup_insert_ne hhc

theorem afterLines_other (c : Conn) (t : State) (lines : List (Env × String)) (h : Conn)
    (hc : c ≠ h) (hl : t.clientList.lookup h = none) :
    (afterLines c t lines).clientList.lookup h = none ∧
    (afterLines c t lines).clientNames.lookup h = t.clientNames.lookup h ∧
    writes (afterLines c t lines) h = writes t h := by
  induction lines generalizing t with
  | nil => exact ⟨hl, rfl, rfl⟩
  | cons p rest ih =>
    obtain ⟨h1, h2, h3⟩ := handleMessage_other p.1 t c (strings.TrimSpace p.2) h hc hl
    obtain ⟨k1, k2, k3⟩ := ih (handleMessage p.1 t c (strings.TrimSpace p.2)) h1
    simp only [afterLines, List.foldl_cons] at k1 k2 k3 ⊢
    exact ⟨k1, k2.trans h2, k3.trans h3⟩

theorem clientNames_teardown (c : Conn) (s : State) :
    (teardown c s).clientNames = s.clientNames.erase c :=
  rfl

theorem clientList_teardown (c : Conn) (s : State) :
    (teardown c s).clientList = s.clientList.erase c :=
  rfl

theorem writes_teardown (c : Conn) (s : State) (h : Conn) :
    writes (teardown c s) h = writes s h := by
  simp [writes, teardown, List.filterMap_append, Event.writtenTo]

theorem received_teardown (c : Conn) (s : State) (h : Conn) :
    received (teardown c s) h = received s h := by
  simp [received, teardown, List.filterMap_append, Event.deliveredTo]

theorem handleConnection_eq (h : Conn) (s : State) (lines : List (Env × String)) (env : Env)
    (err : ReadErr) :
    handleConnection h s lines (env, err) =
      teardown h (broadcastMessage env (afterLines h s lines)
        (env.now ++ " Notice: \"" ++ index (afterLines h s lines).clientNames h
          ++ "\" left the chat\n")) := by
  rw [handleConnection, readLoop_eq]

theorem handleConnection_other (c : Conn) (t : State) (lines : List (Env × String))
    (last : Env × ReadErr) (h : Conn) (hc : c ≠ h) (hl : t.clientList.lookup h = none) :
    (handleConnection c t lines last).clientList.lookup h = none ∧
    (handleConnection c t lines last).clientNames.lookup h = t.clientNames.lookup h ∧
    writes (handleConnection c t lines last) h = writes t h := by
  have hhc : h ≠ c := fun e => hc e.symm
  obtain ⟨env, err⟩ := last
  obtain ⟨k1, k2, k3⟩ := afterLines_other c t lines h hc hl
  rw [handleConnection_eq]
  refine ⟨?_, ?_, ?_⟩
  · show (AList.erase c _).lookup h = none
    rw [AList.lookup_erase_ne hhc]
    exact (absent_broadcastMessage env _ _ h k1).1
  · show (AList.erase c _).lookup h = _
    rw [AList.lookup_erase_ne hhc, clientNames_broadcastMessage]
    exact k2
  · rw [writes_teardown, (absent_broadcastMessage env _ _ h k1).2]
    exact k3

theorem runsWithout_absent (h : Conn) (s t : State) (hr : RunsWithout h s t)
    (hl : s.clientList.lookup h = none) :
    t.clientList.lookup h = none ∧ t.clientNames.lookup h = s.clientNames.lookup h ∧
    writes t h = writes s h := by
  induction hr with
  | refl => exact ⟨hl, rfl, rfl⟩
  | message env conn msg _ hc ih =>
    obtain ⟨i1, i2, i3⟩ := ih
    obtain ⟨k1, k2, k3⟩ := handleMessage_other env _ conn msg h hc i1
    exact ⟨k1, k2.trans i2, k3.trans i3⟩
  | broadcast env msg _ ih =>
    obtain ⟨i1, i2, i3⟩ := ih
    obtain ⟨k1, k3⟩ := absent_broadcastMessage env _ msg h i1
    exact ⟨k1, by rw [clientNames_broadcastMessage]; exact i2, k3.trans i3⟩
  | connection conn lines last _ hc ih =>
    obtain ⟨i1, i2, i3⟩ := ih
    obtain ⟨k1, k2, k3⟩ := handleConnection_other conn _ lines last h hc i1
    exact ⟨k1, k2.trans i2, k3.trans i3⟩

/-! ## Broadcast: delivery, eviction, logging -/

/-- Claim C4.  `broadcastMessage` tries to write the text to every key of
`clientList`, whatever happens to the others: a handle whose write succeeds
receives exactly the text, once, and stays registered; a handle whose write
fails receives nothing, is closed and is no longer a key of `clientList`, and
no later broadcast performs a write on it, however the server runs on with
the other handles in between.  A handle that is not a key of `clientList` is
not written to. -/
theorem broadcastMessage_delivery (env : Env) (s : State) (text : String) :
    (∀ c ∈ s.clientList.keys, writes (broadcastMessage env s text) c = writes s c ++ [text]) ∧
    (∀ c ∈ s.clientList.keys, env.writeFails c = false →
      received (broadcastMessage env s text) c = received s c ++ [text] ∧
      (broadcastMessage env s text).clientList.lookup c = s.clientList.lookup c) ∧
    (∀ c ∈ s.clientList.keys, env.writeFails c = true →
      received (broadcastMessage env s text) c = received s c ∧
      closed (broadcastMessage env s text) c = true ∧
      c ∉ (broadcastMessage env s text).clientList.keys ∧
      ∀ t, RunsWithout c (broadcastMessage env s text) t →
        ∀ (env2 : Env) (text2 : String),
          writes (broadcastMessage env2 t text2) c
            = writes (broadcastMessage env s text) c) ∧
    (∀ c, c ∉ s.clientList.keys → writes (broadcastMessage env s text) c = writes s c) := by
  refine ⟨?_, ?_, ?_, ?_⟩
  · intro c hc
    rw [writes_broadcastMessage, if_pos hc]
  · intro c hc hw
    constructor
    · rw [received_broadcastMessage, if_pos ⟨hc, hw⟩]
    · rw [lookup_clientList_broadcastMessage]
      simp [hw]
  · intro c hc hw
    have hgone : c ∉ (broadcastMessage env s text).clientList.keys := by
      rw [mem_keys_iff_lookup, lookup_clientList_broadcastMessage]
      simp [hc, hw]
    refine ⟨?_, ?_, hgone, ?_⟩
    · rw [received_broadcastMessage]
      simp [hw]
    · rw [closed_broadcastMessage]
      simp [hc, hw]
    · intro t ht env2 text2
      obtain ⟨k1, _, k3⟩ := runsWithout_absent c _ t ht (lookup_of_not_mem_keys hgone)
      rw [(absent_broadcastMessage env2 t text2 c k1).2, k3]
  · intro c hc
    rw [writes_broadcastMessage, if_neg hc, List.append_nil]

/-- Claim C4, with Alice (1) and Bob (2) registered and the write to Bob
failing: Alice receives the text, Bob is closed and evicted, and the next
broadcast writes nothing to Bob. -/
theorem broadcastMessage_delivery_witness :
    1 ∈ twoJoined.clientList.keys ∧ 2 ∈ twoJoined.clientList.keys ∧
    received (broadcastMessage (Env.failing "12:02" 2) twoJoined "hello\n") 1
      = received twoJoined 1 ++ ["hello\n"] ∧
    closed (broadcastMessage (Env.failing "12:02" 2) twoJoined "hello\n") 2 = true ∧
    2 ∉ (broadcastMessage (Env.failing "12:02" 2) twoJoined "hello\n").clientList.keys ∧
    writes (broadcastMessage (Env.good "12:03")
        (broadcastMessage (Env.failing "12:02" 2) twoJoined "hello\n") "again\n") 2
      = writes (broadcastMessage (Env.failing "12:02" 2) twoJoined "hello\n") 2 :=
  ⟨by decide, by decide,
    ((broadcastMessage_delivery (Env.failing "12:02" 2) twoJoined "hello\n").2.1
      1 (by decide) (by decide)).1,
    ((broadcastMessage_delivery (Env.failing "12:02" 2) twoJoined "hello\n").2.2.1
      2 (by decide) (by decide)).2.1,
    ((broadcastMessage_delivery (Env.failing "12:02" 2) twoJoined "hello\n").2.2.1
      2 (by decide) (by decide)).2.2.1,
    ((broadcastMessage_delivery (Env.failing "12:02" 2) twoJoined "hello\n").2.2.1
      2 (by decide) (by decide)).2.2.2 _ (RunsWithout.refl _) (Env.good "12:03") "again\n"⟩

/-- Claim C8.  `broadcastMessage` calls `logMessage` with the text once for
every key of `clientList`, whether the write to that handle succeeded or
failed; when `history.log` can be opened and written, the text is appended to
it that many times; with no registered handle nothing is logged. -/
theorem broadcastMessage_log (env : Env) (s : State) (text : String) :
    logCalls (broadcastMessage env s text)
      = logCalls s ++ List.replicate (len s.clientList) text ∧
    ((∀ c ∈ s.clientList.keys, env.logOpenFails c = false ∧ env.logWriteFails c = false) →
      history (broadcastMessage env s text)
        = history s ++ List.replicate (len s.clientList) text) ∧
    (len s.clientList = 0 → broadcastMessage env s text = s) := by
  refine ⟨logCalls_broadcastMessage env s text, history_broadcastMessage env s text, ?_⟩
  intro h0
  have hk : s.clientList.keys = [] := by
    have : s.clientList.entries = [] := List.length_eq_zero.mp h0
    simp [AList.keys, this]
  rw [broadcastMessage_eq, hk]
  simp [eraseFailed, broadcastEvents]

/-- Claim C8, with two registered handles and a writable log: the text is
appended twice. -/
theorem broadcastMessage_log_witness :
    len twoJoined.clientList = 2 ∧
    history (broadcastMessage (Env.failing "12:02" 2) twoJoined "hello\n")
      = history twoJoined ++ ["hello\n", "hello\n"] :=
  ⟨by decide,
    ((broadcastMessage_log (Env.failing "12:02" 2) twoJoined "hello\n").2.1
      (fun _ _ => ⟨rfl, rfl⟩)).trans (by decide)⟩

/-! ## Sessions: teardown and departure -/

/-- Claim C6.  Whatever the starting state, the lines read and the read error
that ends the session, after `handleConnection` the handle is closed, is a key
of neither `clientNames` nor `clientList`, and no broadcast that follows
writes to it: neither the next one, nor any later one while the server runs
on with the other handles. -/
theorem handleConnection_teardown (h : Conn) (s : State) (lines : List (Env × String))
    (last : Env × ReadErr) :
    closed (handleConnection h s lines last) h = true ∧
    (handleConnection h s lines last).clientNames.lookup h = none ∧
    (handleConnection h s lines last).clientList.lookup h = none ∧
    h ∉ (handleConnection h s lines last).clientList.keys ∧
    (∀ (env : Env) (text : String),
      writes (broadcastMessage env (handleConnection h s lines last) text) h
        = writes (handleConnection h s lines last) h) ∧
    (∀ t, RunsWithout h (handleConnection h s lines last) t →
      t.clientNames.lookup h = none ∧ h ∉ t.clientList.keys ∧
      writes t h = writes (handleConnection h s lines last) h ∧
      ∀ (env : Env) (text : String), writes (broadcastMessage env t text) h = writes t h) := by
  have hN : (handleConnection h s lines last).clientNames.lookup h = none :=
    AList.lookup_erase h _
  have hL : (handleConnection h s lines last).clientList.lookup h = none :=
    AList.lookup_erase h _
  refine ⟨?_, hN, hL, not_mem_keys_of_lookup hL, ?_, ?_⟩
  · simp [closed, handleConnection, teardown]
  · intro env text
    exact (absent_broadcastMessage env _ text h hL).2
  · intro t ht
    obtain ⟨k1, k2, k3⟩ := runsWithout_absent h _ t ht hL
    exact ⟨k2.trans hN, not_mem_keys_of_lookup k1, k3, fun env text =>
      (absent_broadcastMessage env t text h k1).2⟩

/-- Claim C6, with Alice (1) and Bob (2) registered and Bob's session reading
one chat line and then failing: Bob is closed and gone from both maps, and a
broadcast after Alice's next line writes nothing to him. -/
theorem handleConnection_teardown_witness :
    closed (handleConnection 2 twoJoined [(Env.good "12:08", "hi\n")]
      (Env.good "12:09", ReadErr.other)) 2 = true ∧
    (handleConnection 2 twoJoined [(Env.good "12:08", "hi\n")]
      (Env.good "12:09", ReadErr.other)).clientNames.lookup 2 = none ∧
    (handleConnection 2 twoJoined [(Env.good "12:08", "hi\n")]
      (Env.good "12:09", ReadErr.other)).clientList.lookup 2 = none ∧
    writes (handleMessage (Env.good "12:10")
        (handleConnection 2 twoJoined [(Env.good "12:08", "hi\n")]
          (Env.good "12:09", ReadErr.other)) 1 "anyone?") 2
      = writes (handleConnection 2 twoJoined [(Env.good "12:08", "hi\n")]
          (Env.good "12:09", ReadErr.other)) 2 :=
  ⟨(handleConnection_teardown 2 twoJoined [(Env.good "12:08", "hi\n")]
      (Env.good "12:09", ReadErr.other)).1,
    (handleConnection_teardown 2 twoJoined [(Env.good "12:08", "hi\n")]
      (Env.good "12:09", ReadErr.other)).2.1,
    (handleConnection_teardown 2 twoJoined [(Env.good "12:08", "hi\n")]
      (Env.good "12:09", ReadErr.other)).2.2.1,
    ((handleConnection_teardown 2 twoJoined [(Env.good "12:08", "hi\n")]
      (Env.good "12:09", ReadErr.other)).2.2.2.2.2 _
        (RunsWithout.message (Env.good "12:10") 1 "anyone?" (RunsWithout.refl _)
          (by decide))).2.2.1⟩

theorem erase_of_not_mem (m : ConnMap) (c : Conn) (hc : c ∉ m.keys) : m.erase c = m := by
  apply AList.ext
  exact List.kerase_of_not_mem_keys hc

theorem erase_erase_self (m : ConnMap) (c : Conn) : (m.erase c).erase c = m.erase c := by
  apply erase_of_not_mem
  rw [mem_keys_iff_lookup, AList.lookup_erase]
  simp

theorem erase_eraseFailed (env : Env) (h : Conn) (l : List Conn) (m : ConnMap)
    (hok : ∀ c ∈ l, c ≠ h → env.writeFails c = false) :
    (eraseFailed env l m).erase h = m.erase h := by
  induction l generalizing m with
  | nil => rfl
  | cons d ds ih =>
    have hds : ∀ c ∈ ds, c ≠ h → env.writeFails c = false :=
      fun c hc => hok c (List.mem_cons_of_mem d hc)
    simp only [eraseFailed]
    cases hw : env.writeFails d
    · simpa using ih m hds
    · have hd : d = h := by
        by_contra hne
        have := hok d (List.mem_cons_self d ds) hne
        rw [hw] at this
        exact Bool.noConfusion this
      subst hd
      simp only [if_true]
      rw [ih (m.erase d) hds, erase_erase_self]

/-- Claim C7.  Whatever lines the session read and whichever read error ended
it, `handleConnection` ends with one broadcast of the departure notice followed
by the teardown: the notice carries the name the handle has in `clientNames`
at that moment, which is the name of the last `/join` line of the session (or
the name held before the session, and the empty string when there is none);
every handle in `clientList` is written the notice exactly once, and receives
it when its write succeeds; the number of entries of `clientNames` drops by
one when the handle had a name, and so does the number of entries of
`clientList` when the handle was in it and no other recipient's write fails. -/
theorem handleConnection_departure (h : Conn) (s : State) (lines : List (Env × String))
    (env : Env) (err : ReadErr) :
    handleConnection h s lines (env, err) =
      teardown h (broadcastMessage env (afterLines h s lines)
        (env.now ++ " Notice: \"" ++ index (afterLines h s lines).clientNames h
          ++ "\" left the chat\n")) ∧
    index (afterLines h s lines).clientNames h
      = (lastJoined (s.clientNames.lookup h) lines).getD "" ∧
    (handleConnection h s lines (env, err)).trace =
      (afterLines h s lines).trace ++
        broadcastEvents env
          (env.now ++ " Notice: \"" ++ index (afterLines h s lines).clientNames h
            ++ "\" left the chat\n")
          (afterLines h s lines).clientList.keys ++
        [Event.close h] ∧
    (∀ c, writes (handleConnection h s lines (env, err)) c =
      writes (afterLines h s lines) c ++
        if c ∈ (afterLines h s lines).clientList.keys then
          [env.now ++ " Notice: \"" ++ index (afterLines h s lines).clientNames h
            ++ "\" left the chat\n"]
        else []) ∧
    (∀ c ∈ (afterLines h s lines).clientList.keys, env.writeFails c = false →
      received (handleConnection h s lines (env, err)) c =
        received (afterLines h s lines) c ++
          [env.now ++ " Notice: \"" ++ index (afterLines h s lines).clientNames h
            ++ "\" left the chat\n"]) ∧
    (h ∈ (afterLines h s lines).clientNames.keys →
      len (handleConnection h s lines (env, err)).clientNames + 1
        = len (afterLines h s lines).clientNames) ∧
    (h ∈ (afterLines h s lines).clientList.keys →
      (∀ c ∈ (afterLines h s lines).clientList.keys, c ≠ h → env.writeFails c = false) →
      len (handleConnection h s lines (env, err)).clientList + 1
        = len (afterLines h s lines).clientList) := by
  rw [handleConnection_eq]
  refine ⟨rfl, ?_, ?_, ?_, ?_, ?_, ?_⟩
  · rw [index, lookup_afterLines]
  · show (broadcastMessage env _ _).trace ++ [Event.close h] = _
    rw [trace_broadcastMessage]
  · intro c
    rw [writes_teardown, writes_broadcastMessage]
  · intro c hc hw
    rw [received_teardown, received_broadcastMessage, if_pos ⟨hc, hw⟩]
  · intro hmem
    show len (AList.erase h (broadcastMessage env _ _).clientNames) + 1 = _
    rw [clientNames_broadcastMessage]
    exact len_erase_of_mem _ h hmem
  · intro hmem hok
    show len (AList.erase h (broadcastMessage env _ _).clientList) + 1 = _
    rw [broadcastMessage_eq]
    show len (AList.erase h (eraseFailed env _ _)) + 1 = _
    rw [erase_eraseFailed env h _ _ hok]
    exact len_erase_of_mem _ h hmem

/-- Claim C7, with Alice (1) and Bob (2) registered and Bob's connection
dropping: Alice receives the notice that Bob left, and the count goes from 2
to 1. -/
theorem handleConnection_departure_witness :
    2 ∈ (afterLines 2 twoJoined []).clientNames.keys ∧
    len (afterLines 2 twoJoined []).clientNames = 2 ∧
    len (handleConnection 2 twoJoined [] (Env.good "12:09", ReadErr.eof)).clientNames + 1 = 2 ∧
    received (handleConnection 2 twoJoined [] (Env.good "12:09", ReadErr.eof)) 1
      = received twoJoined 1 ++ ["12:09 Notice: \"Bob\" left the chat\n"] :=
  ⟨by decide, by decide,
    ((handleConnection_departure 2 twoJoined [] (Env.good "12:09") ReadErr.eof).2.2.2.2.2.1
      (by decide)).trans (by decide),
    ((handleConnection_departure 2 twoJoined [] (Env.good "12:09") ReadErr.eof).2.2.2.2.1
      1 (by decide) rfl).trans (by decide)⟩

/-! ## The two maps -/

theorem listInNames_broadcastMessage (env : Env) (s : State) (msg : String)
    (hs : ListInNames s) : ListInNames (broadcastMessage env s msg) := by
  intro h n hl
  rw [lookup_clientList_broadcastMessage] at hl
  rw [clientNames_broadcastMessage]
  split at hl
  · exact Option.noConfusion hl
  · exact hs h n hl

theorem listInNames_handleMessage (env : Env) (s : State) (c : Conn) (msg : String)
    (hs : ListInNames s) : ListInNames (handleMessage env s c msg) := by
  cases hj : strings.HasPrefix msg "/join"
  · cases hu : strings.HasPrefix msg "/users"
    · cases hn : s.clientNames.lookup c with
      | none =>
        rw [handleMessage_prompt_eq env s c msg hn hj hu]
        exact hs
      | some n =>
        rw [handleMessage_chat_eq env s c n msg hn hj hu]
        exact listInNames_broadcastMessage env s _ hs
    · rw [handleMessage_users_eq env s c msg hj hu]
      exact listInNames_broadcastMessage env s _ hs
  · rw [handleMessage_join_eq env s c msg hj]
    apply listInNames_broadcastMessage
    intro h n hl
    show (s.clientNames.insert c _).lookup h = some n
    have hl2 : (s.clientList.insert c
      (strings.TrimSpace (strings.TrimPrefix msg "/join"))).lookup h = some n := hl
    by_cases hhc : h = c
    · subst hhc
      rw [AList.lookup_insert] at hl2 ⊢
      exact hl2
    · rw [AList.lookup_insert_ne hhc] at hl2 ⊢
      exact hs h n hl2

theorem listInNames_afterLines (c : Conn) (s : State) (lines : List (Env × String))
    (hs : ListInNames s) : ListInNames (afterLines c s lines) := by
  induction lines generalizing s with
  | nil => exact hs
  | cons p rest ih =>
    simp only [afterLines, List.foldl_cons]
    exact ih _ (listInNames_handleMessage p.1 s c _ hs)

theorem listInNames_handleConnection (c : Conn) (s : State) (lines : List (Env × String))
    (last : Env × ReadErr) (hs : ListInNames s) :
    ListInNames (handleConnection c s lines last) := by
  obtain ⟨env, err⟩ := last
  rw [handleConnection_eq]
  have hb := listInNames_broadcastMessage env _
    (env.now ++ " Notice: \"" ++ index (afterLines c s lines).clientNames c
      ++ "\" left the chat\n") (listInNames_afterLines c s lines hs)
  intro h n hl
  rw [clientList_teardown] at hl
  rw [clientNames_teardown]
  by_cases hhc : h = c
  · subst hhc
    rw [AList.lookup_erase] at hl
    exact Option.noConfusion hl
  · rw [AList.lookup_erase_ne hhc] at hl ⊢
    exact hb h n hl

theorem listInNames_of_reachable (s : State) (hr : Reachable s) : ListInNames s := by
  induction hr with
  | init =>
    intro h n hl
    exact Option.noConfusion hl
  | message env conn msg _ ih => exact listInNames_handleMessage env _ conn msg ih
  | broadcast env msg _ ih => exact listInNames_broadcastMessage env _ msg ih
  | connection conn lines last _ ih => exact listInNames_handleConnection conn _ lines last ih

theorem reachable_twoJoined : Reachable twoJoined :=
  Reachable.message _ 2 "/join Bob" (Reachable.message _ 1 "/join Alice" Reachable.init)

theorem reachable_oneEvicted : Reachable oneEvicted :=
  Reachable.message _ 2 "/join Bob" (Reachable.message _ 1 "/join Alice" Reachable.init)

/-- Claim C10.  In every reachable state each handle of `clientList` is a key
of `clientNames` with the same name.  The converse fails in a reachable state:
after a join whose notice could not be written to the joining handle, that
handle is a key of `clientNames` and not of `clientList`. -/
theorem clientList_in_clientNames :
    (∀ s, Reachable s → ∀ h n,
      s.clientList.lookup h = some n → s.clientNames.lookup h = some n) ∧
    (∃ s, Reachable s ∧ ∃ h, h ∈ s.clientNames.keys ∧ h ∉ s.clientList.keys) := by
  refine ⟨listInNames_of_reachable, oneEvicted, reachable_oneEvicted, 2, ?_, ?_⟩
  · decide
  · decide

/-- Claim C10, at the state with two participants: handle 2 is in
`clientList` as Bob, hence in `clientNames` as Bob. -/
theorem clientList_in_clientNames_witness :
    Reachable twoJoined ∧ twoJoined.clientList.lookup 2 = some "Bob" ∧
    twoJoined.clientNames.lookup 2 = some "Bob" :=
  ⟨reachable_twoJoined, by decide,
    clientList_in_clientNames.1 twoJoined reachable_twoJoined 2 "Bob" (by decide)⟩

/-! ## The `/users` count -/

/-- On a line that starts with `/users` (and not with `/join`) the broadcast
notice carries the number of entries of `clientNames`; in a reachable state
this is at least the number of entries of `clientList`. -/
theorem handleMessage_users (env : Env) (s : State) (h : Conn) (line : String)
    (hr : Reachable s)
    (hjoin : strings.HasPrefix line "/join" = false)
    (husers : strings.HasPrefix line "/users" = true) :
    handleMessage env s h line =
      broadcastMessage env s
        (env.now ++ " Notice: \"" ++ strconv.Itoa (len s.clientNames)
          ++ "\" clients in chat\n") ∧
    len s.clientList ≤ len s.clientNames := by
  refine ⟨handleMessage_users_eq env s h line hjoin husers, ?_⟩
  have hsub : s.clientList.keys ⊆ s.clientNames.keys := by
    intro c hc
    rw [mem_keys_iff_lookup] at hc ⊢
    cases hl : s.clientList.lookup c with
    | none => exact absurd hl hc
    | some n =>
      rw [listInNames_of_reachable s hr c n hl]
      simp
  have hle := (List.subperm_of_subset s.clientList.keys_nodup hsub).length_le
  simpa [len, AList.keys, List.keys] using hle

/-- Claim C5, at a state in which the count is stale.  Alice (handle 1)
joined; handle 2 sent `/join Bob` but the join notice could not be written to
it, so the broadcast closed it and deleted it from `clientList`, not from
`clientNames`.  A `/users` line from Alice is then answered with the count 2,
although the broadcast visits, and reaches, handle 1 only. -/
theorem users_count_stale :
    Reachable oneEvicted ∧
    closed oneEvicted 2 = true ∧
    oneEvicted.clientList.keys = [1] ∧
    oneEvicted.clientNames.keys = [2, 1] ∧
    received (handleMessage (Env.good "12:01") oneEvicted 1 "/users") 1
      = received oneEvicted 1 ++ ["12:01 Notice: \"2\" clients in chat\n"] ∧
    writes (handleMessage (Env.good "12:01") oneEvicted 2 "/users") 2 = writes oneEvicted 2 ∧
    handleMessage (Env.good "12:01") oneEvicted 1 "/users"
      ≠ broadcastMessage (Env.good "12:01") oneEvicted
          ("12:01 Notice: \"" ++ strconv.Itoa (len oneEvicted.clientList)
            ++ "\" clients in chat\n") := by
  refine ⟨reachable_oneEvicted, ?_, ?_, ?_, ?_, ?_, ?_⟩
  · decide
  · decide
  · decide
  · decide
  · decide
  · intro h
    have h2 := congrArg (fun s => received s 1) h
    revert h2
    decide

end ChatServer
